import Mathlib

/-!
Shallow embedding of the static information-flow analyser
(`analyser_classes.py` and `ast_visitor.py`), together with the
alternative analyser variant kept at the repository root.

Python dictionaries are modelled as association lists in insertion order
(CPython dicts preserve insertion order; assignment to an existing key
keeps its position, a fresh key is appended).  Python `set` values whose
iteration order the interpreter leaves unspecified are modelled in the
underlying insertion order; every property proved below is insensitive to
that choice or is evaluated on inputs where at most one element occurs.
Python `==` on the analyser's classes is modelled by explicit boolean
comparison functions (`nodeBeq`, `Label.beq`, ...), mirroring each
`__eq__` method.
-/

/-- Identifier occurrence `(name, line)` with the `initialise` flag,
from class `Node`.  `Node.__eq__` and `__hash__` use only `(name, line)`. -/
structure Node where
  name : String
  line : Int
  initialise : Bool := true
deriving Repr, DecidableEq

/-- Python `Node.__eq__`: equality on `(name, line)` only. -/
def nodeBeq (a b : Node) : Bool :=
  a.name == b.name && a.line == b.line

theorem nodeBeq_iff {a b : Node} : nodeBeq a b = true ↔ (a.name = b.name ∧ a.line = b.line) := by
  simp [nodeBeq]

theorem nodeBeq_refl (a : Node) : nodeBeq a a = true := by
  simp [nodeBeq]

theorem nodeBeq_symm (a b : Node) : nodeBeq a b = nodeBeq b a := by
  rw [Bool.eq_iff_iff]
  simp only [nodeBeq_iff]
  exact ⟨fun h => ⟨h.1.symm, h.2.symm⟩, fun h => ⟨h.1.symm, h.2.symm⟩⟩

theorem nodeBeq_trans {a b c : Node} (h1 : nodeBeq a b = true) (h2 : nodeBeq b c = true) :
    nodeBeq a c = true := by
  rw [nodeBeq_iff] at *
  exact ⟨h1.1.trans h2.1, h1.2.trans h2.2⟩

/-- A sanitizer chain: an ordered list of sanitizer nodes already applied. -/
abbrev SanFlow := List Node

/-- Python `==` on flows: element-wise `Node.__eq__`. -/
def flowBeq : SanFlow → SanFlow → Bool
  | [], [] => true
  | a :: as, b :: bs => nodeBeq a b && flowBeq as bs
  | _, _ => false

theorem flowBeq_refl (f : SanFlow) : flowBeq f f = true := by
  induction f with
  | nil => rfl
  | cons a as ih => simp [flowBeq, nodeBeq_refl, ih]

theorem flowBeq_symm (f g : SanFlow) : flowBeq f g = flowBeq g f := by
  induction f generalizing g with
  | nil => cases g <;> rfl
  | cons a as ih =>
    cases g with
    | nil => rfl
    | cons b bs => simp [flowBeq, ih, nodeBeq_symm]

theorem flowBeq_trans {f g h : SanFlow} (h1 : flowBeq f g = true) (h2 : flowBeq g h = true) :
    flowBeq f h = true := by
  induction f generalizing g h with
  | nil => cases g <;> cases h <;> simp_all [flowBeq]
  | cons a as ih =>
    cases g with
    | nil => simp [flowBeq] at h1
    | cons b bs =>
      cases h with
      | nil => simp [flowBeq] at h2
      | cons c cs =>
        simp only [flowBeq, Bool.and_eq_true] at *
        exact ⟨nodeBeq_trans h1.1 h2.1, ih h1.2 h2.2⟩

/-- Python `==` on lists of flows (the `flows` component of a Label pair). -/
def flowsBeq : List SanFlow → List SanFlow → Bool
  | [], [] => true
  | a :: as, b :: bs => flowBeq a b && flowsBeq as bs
  | _, _ => false

theorem flowsBeq_refl (fs : List SanFlow) : flowsBeq fs fs = true := by
  induction fs with
  | nil => rfl
  | cons a as ih => simp [flowsBeq, flowBeq_refl, ih]

/-- One Label pair `(source_node, flows)`. -/
abbrev LPair := Node × List SanFlow

/-- Python `==` on Label pairs (`[source, flows] == [source, flows]`). -/
def pairBeq (p q : LPair) : Bool :=
  nodeBeq p.1 q.1 && flowsBeq p.2 q.2

theorem pairBeq_refl (p : LPair) : pairBeq p p = true := by
  simp [pairBeq, nodeBeq_refl, flowsBeq_refl]

/-- Python `flow in flows` membership, testing the searched flow on the left. -/
def flowMem (f : SanFlow) (fs : List SanFlow) : Bool :=
  fs.any (fun g => flowBeq f g)

/-- One step of `Label.add_pair`'s inner flow merge:
`if flow not in pair[1]: pair[1].append(flow)`. -/
def insFlow (acc : List SanFlow) (f : SanFlow) : List SanFlow :=
  if flowMem f acc then acc else acc ++ [f]

/-- The flow merge of `Label.add_pair`: append each new flow not already present,
testing membership against the growing list. -/
def addFlows (flows newFlows : List SanFlow) : List SanFlow :=
  newFlows.foldl insFlow flows

/-- The scan of `Label.add_pair`: merge the flows into the first pair with the same
source node, otherwise append the pair at the end. -/
def addPairAux : List LPair → LPair → List LPair
  | [], p => [p]
  | q :: rest, p =>
    if nodeBeq q.1 p.1 then (q.1, addFlows q.2 p.2) :: rest
    else q :: addPairAux rest p

/-- Taint value of one pattern at one point: a list of `(source_node, flows)`
pairs, from class `Label`. -/
structure Label where
  pairs : List LPair
deriving Repr, DecidableEq

/-- Python `Label(source)`: `add_pair([source, [[]]])` into an empty pair list. -/
def Label.fromSource (n : Node) : Label :=
  ⟨[(n, [[]])]⟩

/-- Python `Label.create_empty()`. -/
def Label.create_empty : Label := ⟨[]⟩

/-- Python `Label.add_pair`. -/
def Label.add_pair (l : Label) (p : LPair) : Label :=
  ⟨addPairAux l.pairs p⟩

/-- Python `Label.combine(label1, label2)`: start from a copy of `label1` and
`add_pair` each pair of `label2` in order. -/
def Label.combine (l1 l2 : Label) : Label :=
  ⟨l2.pairs.foldl addPairAux l1.pairs⟩

/-- Python `Label.sanitise`: append the sanitizer node to every flow of every
pair that does not already contain it (`Node.__eq__` membership). -/
def Label.sanitise (l : Label) (s : Node) : Label :=
  ⟨l.pairs.map (fun p =>
    (p.1, p.2.map (fun f => if f.any (fun x => nodeBeq s x) then f else f ++ [s])))⟩

/-- Python `Label.fix_lineno`: rewrite every source whose line is `-1` to `lineno`. -/
def Label.fix_lineno (l : Label) (lineno : Int) : Label :=
  ⟨l.pairs.map (fun p =>
    (if p.1.line == (-1 : Int) then { p.1 with line := lineno } else p.1, p.2))⟩

/-- Python `Label.__eq__`: equal pair counts, and every pair of the left label
occurs (by `pairBeq`) among the pairs of the right one. -/
def Label.beq (l1 l2 : Label) : Bool :=
  l1.pairs.length == l2.pairs.length &&
    l1.pairs.all (fun p => l2.pairs.any (fun q => pairBeq p q))

theorem Label.beq_refl (l : Label) : Label.beq l l = true := by
  simp only [Label.beq, Bool.and_eq_true, beq_iff_eq, List.all_eq_true]
  exact ⟨trivial, fun p hp => List.any_eq_true.2 ⟨p, hp, pairBeq_refl p⟩⟩

/-- A label is well formed when no two pairs share a source node; this is the
invariant every `Label` built through `add_pair` maintains. -/
def Label.wf (l : Label) : Prop :=
  l.pairs.Pairwise (fun p q => nodeBeq p.1 q.1 = false)

-- ### Association-list model of Python dictionaries

/-- Python `key in dict`. -/
def dictContains {α : Type} (m : List (String × α)) (k : String) : Bool :=
  m.any (fun e => e.1 == k)

/-- Python `dict[key]` lookup (first, and in a dict only, binding of the key). -/
def dictFind {α : Type} (m : List (String × α)) (k : String) : Option α :=
  (m.find? (fun e => e.1 == k)).map (·.2)

/-- Python `dict[key] = value`: replace in place when present, append when fresh. -/
def dictSet {α : Type} (m : List (String × α)) (k : String) (v : α) : List (String × α) :=
  if dictContains m k then m.map (fun e => if e.1 == k then (k, v) else e)
  else m ++ [(k, v)]

/-- First-occurrence deduplication, modelling construction of a Python `set`
from a list of strings. -/
def dedupFirst (l : List String) : List String :=
  l.foldl (fun acc v => if acc.contains v then acc else acc ++ [v]) []

-- ### Pattern and Policy

/-- Vulnerability descriptor, from class `Pattern`; the three component lists
hold identifier names as read from the policy JSON, and `implicit` holds the
JSON string compared against `"yes"` by `is_implicit`. -/
structure Pattern where
  vuln_name : String
  sources : List String
  sanitisers : List String
  sinks : List String
  implicit : String
deriving Repr, DecidableEq

def Pattern.is_source (p : Pattern) (name : String) : Bool := p.sources.contains name

def Pattern.is_sanitiser (p : Pattern) (name : String) : Bool := p.sanitisers.contains name

def Pattern.is_sink (p : Pattern) (name : String) : Bool := p.sinks.contains name

def Pattern.is_implicit (p : Pattern) : Bool := p.implicit == "yes"

/-- Ordered pattern collection, from class `Policy`. -/
structure Policy where
  patterns : List Pattern
deriving Repr, DecidableEq

/-- Python `get_patterns_by_source`: the set of patterns listing `source`,
modelled as the filtered list in policy order. -/
def Policy.get_patterns_by_source (p : Policy) (source : String) : List Pattern :=
  p.patterns.filter (fun pat => pat.is_source source)

/-- Python `get_vulns`: the set of vulnerability names, modelled as the
first-occurrence deduplication in policy order. -/
def Policy.get_vulns (p : Policy) : List String :=
  dedupFirst (p.patterns.map (·.vuln_name))

/-- Python `get_vulns_by_sanitiser`. -/
def Policy.get_vulns_by_sanitiser (p : Policy) (sanitiser : String) : List String :=
  dedupFirst ((p.patterns.filter (fun pat => pat.is_sanitiser sanitiser)).map (·.vuln_name))

/-- Python `get_non_sink_vulns`: names of patterns not listing the node as a sink. -/
def Policy.get_non_sink_vulns (p : Policy) (name : String) : List String :=
  dedupFirst ((p.patterns.filter (fun pat => !pat.is_sink name)).map (·.vuln_name))

/-- Python `get_non_implicit_vulns`. -/
def Policy.get_non_implicit_vulns (p : Policy) : List String :=
  dedupFirst ((p.patterns.filter (fun pat => !pat.is_implicit)).map (·.vuln_name))

-- ### MultiLabel

/-- Mapping `vuln_name → Label`, from class `MultiLabel`. -/
structure MultiLabel where
  label_map : List (String × Label)
deriving Repr, DecidableEq

/-- The pair filter of `MultiLabel.__init__`: keep the pairs whose source name
is among the pattern's sources, restricting each flow to the pattern's
sanitisers, re-adding through `add_pair`. -/
def filterLabelForPattern (pat : Pattern) (l : Label) : Label :=
  ⟨l.pairs.foldl (fun acc p =>
    if pat.sources.contains p.1.name then
      addPairAux acc (p.1, p.2.map (fun f => f.filter (fun s => pat.is_sanitiser s.name)))
    else acc) []⟩

/-- A value stored in `MultiLabel.label_map` by `__init__` as written: either a
`Label`, or — through the collision branch `label_map[vuln_name] = [new_label]`
— a bare Python list holding one label. -/
inductive LMValue where
  | lbl (l : Label)
  | lst (ls : List Label)
deriving Repr, DecidableEq

/-- Python `MultiLabel.__init__(patterns, labels)` exactly as written: for each
pattern × label pair install the non-empty filtered label under the pattern's
vuln name; when the key is already present the source stores the bare list
`[new_label]` (class `MultiLabel`, collision branch), so the map value type is
`LMValue`. -/
def MultiLabel.initRaw (patterns : List Pattern) (labels : List Label) :
    List (String × LMValue) :=
  patterns.foldl (fun acc pat =>
    labels.foldl (fun acc2 lab =>
      let newLabel := filterLabelForPattern pat lab
      if newLabel.pairs.length > 0 then
        if dictContains acc2 pat.vuln_name then dictSet acc2 pat.vuln_name (.lst [newLabel])
        else acc2 ++ [(pat.vuln_name, .lbl newLabel)]
      else acc2) acc) []

/-- The `MultiLabel(patterns, labels)` constructor with the Label-valued
reading of the collision branch.  The source's collision branch stores the
bare list `[new_label]` (see `MultiLabel.initRaw`); at every visitor call site
`labels` is a singleton and the matched patterns carry distinct vuln names, so
that branch is never reached there, and this definition keeps the map
Label-valued by installing `new_label` itself. -/
def MultiLabel.ofPatternsLabels (patterns : List Pattern) (labels : List Label) : MultiLabel :=
  ⟨patterns.foldl (fun acc pat =>
    labels.foldl (fun acc2 lab =>
      let newLabel := filterLabelForPattern pat lab
      if newLabel.pairs.length > 0 then dictSet acc2 pat.vuln_name newLabel
      else acc2) acc) []⟩

/-- Python `MultiLabel.create_empty()`. -/
def MultiLabel.create_empty : MultiLabel := ⟨[]⟩

/-- Python `MultiLabel.create_for_uninitialised_variable(policy, node)`: the
single-source label `(node, [[]])` under every vuln name of the policy. -/
def MultiLabel.create_for_uninitialised_variable (pol : Policy) (n : Node) : MultiLabel :=
  ⟨(pol.get_vulns).map (fun v => (v, Label.fromSource n))⟩

/-- Python `MultiLabel.combine`: per-vuln `Label.combine`, entries missing on
one side passing through; iteration over the second map's vuln names. -/
def MultiLabel.combine (m1 m2 : MultiLabel) : MultiLabel :=
  ⟨m2.label_map.foldl (fun acc e =>
    match dictFind m1.label_map e.1 with
    | some l1 => dictSet acc e.1 (Label.combine l1 e.2)
    | none => dictSet acc e.1 e.2) m1.label_map⟩

/-- Python `MultiLabel.sanitise(policy, node)`: apply `Label.sanitise` under
every vuln whose pattern lists the node's name as a sanitiser. -/
def MultiLabel.sanitise (pol : Policy) (m : MultiLabel) (n : Node) : MultiLabel :=
  ⟨m.label_map.map (fun e =>
    if (pol.get_vulns_by_sanitiser n.name).contains e.1 then (e.1, e.2.sanitise n) else e)⟩

/-- Python `MultiLabel.fix_lineno`. -/
def MultiLabel.fix_lineno (m : MultiLabel) (lineno : Int) : MultiLabel :=
  ⟨m.label_map.map (fun e => (e.1, e.2.fix_lineno lineno))⟩

/-- Python `MultiLabel.__eq__`: equal key counts, every key of the left map
present on the right with `Label.__eq__`-equal values. -/
def MultiLabel.beq (m1 m2 : MultiLabel) : Bool :=
  m1.label_map.length == m2.label_map.length &&
    m1.label_map.all (fun e =>
      match dictFind m2.label_map e.1 with
      | some l => Label.beq e.2 l
      | none => false)

/-- Python `Policy.get_illegal_flows_multilabel`: drop every vuln whose pattern
does not list the node's name as a sink. -/
def Policy.get_illegal_flows_multilabel (pol : Policy) (m : MultiLabel) (n : Node) : MultiLabel :=
  ⟨m.label_map.filter (fun e => !(pol.get_non_sink_vulns n.name).contains e.1)⟩

/-- Python `Policy.get_implicit_patterns_multilabel`: drop every vuln whose
pattern is not implicit. -/
def Policy.get_implicit_patterns_multilabel (pol : Policy) (m : MultiLabel) : MultiLabel :=
  ⟨m.label_map.filter (fun e => !(pol.get_non_implicit_vulns).contains e.1)⟩

-- ### MultiLabelling

/-- The abstract store `variable name → MultiLabel`, from class `MultiLabelling`. -/
structure MultiLabelling where
  variable_map : List (String × MultiLabel)
deriving Repr, DecidableEq

/-- Python `is_variable_initialised`. -/
def MultiLabelling.is_variable_initialised (m : MultiLabelling) (v : String) : Bool :=
  dictContains m.variable_map v

/-- Python `get_multilabel`; the key is present at every guarded call site
(Python raises `KeyError` otherwise). -/
def MultiLabelling.get_multilabel (m : MultiLabelling) (v : String) : MultiLabel :=
  (dictFind m.variable_map v).getD MultiLabel.create_empty

/-- Python `set_multilabel`. -/
def MultiLabelling.set_multilabel (m : MultiLabelling) (v : String) (ml : MultiLabel) :
    MultiLabelling :=
  ⟨dictSet m.variable_map v ml⟩

/-- The first loop body of `conciliate_multilabelling`: a binding whose
variable is also in `other` is combined with `other`'s multilabel, otherwise
with the synthetic uninitialised multilabel at line `-1`. -/
def conciliateEntry (pol : Policy) (other : MultiLabelling) (e : String × MultiLabel) :
    String × MultiLabel :=
  match dictFind other.variable_map e.1 with
  | some m2 => (e.1, MultiLabel.combine e.2 m2)
  | none => (e.1, MultiLabel.combine e.2
      (MultiLabel.create_for_uninitialised_variable pol ⟨e.1, -1, true⟩))

/-- The second loop body of `conciliate_multilabelling`: a variable only in
`other` is bound to the combine of the synthetic uninitialised multilabel with
`other`'s multilabel. -/
def conciliateMissingEntry (pol : Policy) (e : String × MultiLabel) : String × MultiLabel :=
  (e.1, MultiLabel.combine
    (MultiLabel.create_for_uninitialised_variable pol ⟨e.1, -1, true⟩) e.2)

/-- Python `MultiLabelling.conciliate_multilabelling(policy, other)`: variables
present on both sides are combined, a variable present on only one side is
combined with the synthetic uninitialised multilabel at line `-1`; the first
loop rewrites `self`'s bindings in place, the second appends `other`-only
variables in `other`'s order. -/
def MultiLabelling.conciliate_multilabelling (m : MultiLabelling) (pol : Policy)
    (other : MultiLabelling) : MultiLabelling :=
  ⟨m.variable_map.map (conciliateEntry pol other) ++
    ((other.variable_map.filter
      (fun e => !dictContains m.variable_map e.1)).map (conciliateMissingEntry pol))⟩

/-- Python `MultiLabelling.__eq__`. -/
def MultiLabelling.beq (m1 m2 : MultiLabelling) : Bool :=
  m1.variable_map.length == m2.variable_map.length &&
    m1.variable_map.all (fun e =>
      match dictFind m2.variable_map e.1 with
      | some ml => MultiLabel.beq e.2 ml
      | none => false)

-- ### Vulnerabilities

/-- One recorded observation `(Label, sink_node)`. -/
abbrev Obs := Label × Node

/-- Python `==` on observations (tuple comparison: `Label.__eq__` then
`Node.__eq__`). -/
def obsBeq (a b : Obs) : Bool :=
  Label.beq a.1 b.1 && nodeBeq a.2 b.2

/-- Accumulator `vuln_name → list of (Label, sink_node)`, from class
`Vulnerabilities`. -/
structure Vulnerabilities where
  vulnerabilities : List (String × List Obs)
deriving Repr, DecidableEq

/-- Python `Vulnerabilities.add_vulnerability(policy, multilabel, node)`:
restrict to sink-matching vulns and append each `(label, node)` observation
not already present (searched value on the left of `==`). -/
def Vulnerabilities.add_vulnerability (v : Vulnerabilities) (pol : Policy)
    (multilabel : MultiLabel) (n : Node) : Vulnerabilities :=
  let newMl := pol.get_illegal_flows_multilabel multilabel n
  ⟨newMl.label_map.foldl (fun acc e =>
    match dictFind acc e.1 with
    | some lst =>
      if lst.any (fun o => obsBeq (e.2, n) o) then acc
      else dictSet acc e.1 (lst ++ [(e.2, n)])
    | none => dictSet acc e.1 [(e.2, n)]) v.vulnerabilities⟩

/-- Python `Vulnerabilities.conciliate_vulnerabilities(other)`.  The guard
`other_vuln not in self.vulnerabilities[vuln_name]` compares the Python list
`other_vuln` against the tuple entries of `self`'s list; a list never equals a
tuple in Python, so the guard always holds and the other side's whole list is
appended. -/
def Vulnerabilities.conciliate_vulnerabilities (v other : Vulnerabilities) : Vulnerabilities :=
  ⟨other.vulnerabilities.foldl (fun acc e =>
    match dictFind acc e.1 with
    | some lst => dictSet acc e.1 (lst ++ e.2)
    | none => dictSet acc e.1 e.2) v.vulnerabilities⟩

-- ### Report serialization (Vulnerabilities.__repr__)

/-- One serialized vulnerability record of `Vulnerabilities.__repr__`, with the
source and sink rendered as `(name, line)` the way `Node.__repr__` prints
`[name, line]`. -/
structure OutRecord where
  vulnerability : String
  source : String × Int
  sink : String × Int
  unsanitized_flows : String
  sanitized_flows : List SanFlow
deriving Repr, DecidableEq

/-- The record built by `__repr__` for one pair at 1-based counter `i`. -/
def pairRecord (vn : String) (i : Nat) (sink : Node) (p : LPair) : OutRecord :=
  { vulnerability := vn ++ "_" ++ toString i
    source := (p.1.name, p.1.line)
    sink := (sink.name, sink.line)
    unsanitized_flows := if p.2.any (fun f => f.length == 0) then "yes" else "no"
    sanitized_flows := p.2.filter (fun f => f.length > 0) }

/-- The inner pair loop of `__repr__`, threading the counter. -/
def recordsForPairs (vn : String) (sink : Node) :
    List LPair → Nat → List OutRecord × Nat
  | [], i => ([], i)
  | p :: ps, i =>
    let rest := recordsForPairs vn sink ps (i + 1)
    (pairRecord vn i sink p :: rest.1, rest.2)

/-- The observation loop of `__repr__` for one vuln name, with the counter
running across all of that name's observations. -/
def recordsForEntries (vn : String) : List Obs → Nat → List OutRecord
  | [], _ => []
  | (l, s) :: rest, i =>
    let this := recordsForPairs vn s l.pairs i
    this.1 ++ recordsForEntries vn rest this.2

/-- Python `Vulnerabilities.__repr__` as the list of records it serializes, in
output order (vuln names in insertion order, counter reset to 1 per name). -/
def reprRecords (v : Vulnerabilities) : List OutRecord :=
  v.vulnerabilities.foldr (fun e acc => recordsForEntries e.1 e.2 1 ++ acc) []

-- ### The AST visitor (ast_visitor.py)

/-- Visitor state: the fields of `ASTVisitor` that evolve during a walk
(`multilabelling`, `vulnerabilities`, `conditions_stack`); the policy is
fixed at construction and passed separately. -/
structure VState where
  multilabelling : MultiLabelling
  vulnerabilities : Vulnerabilities
  conditions_stack : List MultiLabel
deriving Repr, DecidableEq

/-- Python `ASTVisitor.__get_variable_multilabel(name, lineno)`: an initialised
variable combines its stored multilabel with a fresh source-construction for
`name` and fixes sentinel `-1` lines to `lineno`; an uninitialised variable is
returned as the uninitialised-variable multilabel. -/
def get_variable_multilabel (pol : Policy) (st : VState) (name : String) (lineno : Int) :
    Node × MultiLabel :=
  let simpleNode : Node := ⟨name, lineno, true⟩
  let multilabel := MultiLabel.ofPatternsLabels (pol.get_patterns_by_source name)
    [Label.fromSource simpleNode]
  if st.multilabelling.is_variable_initialised name then
    (simpleNode,
      (MultiLabel.combine (st.multilabelling.get_multilabel name) multilabel).fix_lineno lineno)
  else
    (simpleNode, MultiLabel.create_for_uninitialised_variable pol simpleNode)

/-- The expression fragment the analysed programs use: name reads, calls whose
callee is a name expression, and constants (which the visitor has no handler
for, so `generic_visit` yields `None`). -/
inductive PyExpr where
  | name (id : String) (lineno : Int)
  | call (funcId : String) (funcLine : Int) (args : List PyExpr)
  | const
deriving Repr

/-- An expression visit returns `None` for unhandled nodes and otherwise a
`(handle, MultiLabel)` pair; a bare `Node` handle is stored as a singleton
list, which every consumer of the source immediately wraps into. -/
abbrev ExprRes := Option (Option (List Node) × MultiLabel)

mutual

/-- Python `ASTVisitor.visit_Name` / `visit_Call` (callee restricted to a name
expression, keyword arguments absent from the fragment); threading of the
visitor's mutable state is explicit. -/
def visit_expr (pol : Policy) (st : VState) : PyExpr → VState × ExprRes
  | .name id lineno =>
    let r := get_variable_multilabel pol st id lineno
    (st, some (some [r.1], r.2))
  | .const => (st, none)
  | .call funcId funcLine args =>
    let funcNode := (get_variable_multilabel pol st funcId funcLine).1
    let ar := visit_args pol st MultiLabel.create_empty args
    let st1 := ar.1
    let retMl1 := st1.conditions_stack.foldl MultiLabel.combine ar.2
    let retMl2 := MultiLabel.sanitise pol retMl1 funcNode
    let vulns := st1.vulnerabilities.add_vulnerability pol retMl2 funcNode
    let mll := st1.multilabelling.set_multilabel funcId MultiLabel.create_empty
    ((⟨mll, vulns, st1.conditions_stack⟩ : VState), some (some [funcNode],
      MultiLabel.combine retMl2
        (MultiLabel.ofPatternsLabels (pol.get_patterns_by_source funcId)
          [Label.fromSource funcNode])))

/-- The argument loop of `visit_Call`: visit each argument in order, a `None`
result contributing the empty multilabel, combining into the accumulator. -/
def visit_args (pol : Policy) (st : VState) (ml : MultiLabel) :
    List PyExpr → VState × MultiLabel
  | [] => (st, ml)
  | a :: rest =>
    let r := visit_expr pol st a
    let aml := match r.2 with
      | none => MultiLabel.create_empty
      | some hm => hm.2
    visit_args pol r.1 (MultiLabel.combine ml aml) rest

end

/-- The target loop of `visit_Assign`: visit each target and concatenate the
wrapped handle nodes; targets of the embedded fragment are name expressions,
which always yield a handle. -/
def visit_targets (pol : Policy) (st : VState) : List PyExpr → VState × List Node
  | [] => (st, [])
  | t :: rest =>
    let r := visit_expr pol st t
    let ns := match r.2 with
      | some hm =>
        match hm.1 with
        | some l => l
        | none => []
      | none => []
    let r2 := visit_targets pol r.1 rest
    (r2.1, ns ++ r2.2)

/-- The statement fragment the analysed programs use. -/
inductive PyStmt where
  | exprStmt (value : PyExpr)
  | assign (targets : List PyExpr) (value : PyExpr)
  | ifStmt (test : PyExpr) (body : List PyStmt) (orelse : List PyStmt)
deriving Repr

mutual

/-- Python `ASTVisitor.visit_Expr` / `visit_Assign` / `visit_If`.  For `If`,
both forks start from the state holding the pushed implicit-restricted test
multilabel, their stores and vulnerabilities are conciliated, and the final
conditions stack is the caller's with the pushed entry popped. -/
def visit_stmt (pol : Policy) (st : VState) : PyStmt → VState
  | .exprStmt v => (visit_expr pol st v).1
  | .assign targets value =>
    let vr := visit_expr pol st value
    let valueMl := match vr.2 with
      | none => MultiLabel.create_empty
      | some hm => hm.2
    let tr := visit_targets pol vr.1 targets
    (tr.2.foldl (fun acc tn =>
      let vml := acc.1.conditions_stack.foldl MultiLabel.combine acc.2
      let vulns := acc.1.vulnerabilities.add_vulnerability pol vml tn
      let mll := if tn.initialise then acc.1.multilabelling.set_multilabel tn.name vml
                 else acc.1.multilabelling
      ((⟨mll, vulns, acc.1.conditions_stack⟩ : VState), vml)) (tr.1, valueMl)).1
  | .ifStmt test body orelse =>
    let tr := visit_expr pol st test
    let st0 := tr.1
    let st1 : VState := match tr.2 with
      | some hm => ⟨st0.multilabelling, st0.vulnerabilities,
          st0.conditions_stack ++ [pol.get_implicit_patterns_multilabel hm.2]⟩
      | none => st0
    let s1 := visit_stmts pol st1 body
    let s2 := visit_stmts pol st1 orelse
    let mll := s1.multilabelling.conciliate_multilabelling pol s2.multilabelling
    let vulns := s1.vulnerabilities.conciliate_vulnerabilities s2.vulnerabilities
    ⟨mll, vulns, match tr.2 with
      | some _ => st1.conditions_stack.dropLast
      | none => st1.conditions_stack⟩

/-- A statement sequence visited in source order. -/
def visit_stmts (pol : Policy) (st : VState) : List PyStmt → VState
  | [] => st
  | s :: rest => visit_stmts pol (visit_stmt pol st s) rest

end

-- ### The bounded fixpoint loop of visit_While

/-- The `for _ in range(10000)` loop of `ASTVisitor.visit_While` with the body
pass and the test re-evaluation abstracted: `bodyPass` runs the loop body once
(returning the new state and whether a top-level `Break` was met), `testUpdate`
re-evaluates the test into the reserved conditions slot.  The loop stops on a
break or when the store after a pass occurs in the history, else appends the
store to the history and updates the test; the third component counts executed
iterations. -/
def while_fix_loop (bodyPass : VState → VState × Bool) (testUpdate : VState → VState) :
    Nat → VState → List MultiLabelling → Nat → VState × Bool × Nat
  | 0, st, _, count => (st, false, count)
  | fuel + 1, st, states, count =>
    let br := bodyPass st
    if br.2 then (br.1, true, count + 1)
    else if states.any (fun m => MultiLabelling.beq br.1.multilabelling m) then
      (br.1, false, count + 1)
    else
      while_fix_loop bodyPass testUpdate fuel (testUpdate br.1)
        (states ++ [br.1.multilabelling]) (count + 1)

/-- The fixpoint loop of `visit_While` as entered by the source: 10000
iterations at most, with the history seeded with the initial store. -/
def visit_While_loop (bodyPass : VState → VState × Bool) (testUpdate : VState → VState)
    (st : VState) : VState × Bool × Nat :=
  while_fix_loop bodyPass testUpdate 10000 st [st.multilabelling] 0

-- ### The alternative analyser variant (repository root analyser_classes.py)

/-- The `Variable` class of the alternative variant at the repository root. -/
structure Variable where
  name : String
  line : Int
deriving Repr, DecidableEq

/-- Python `Variable.__hash__` of the alternative variant is `hash(self)`:
computing the hash re-invokes the very same hash on the same object.  The
unbounded self-recursion is modelled with explicit fuel; `none` means the
computation produced no value within `fuel` nested calls, and since each call
consumes its whole budget on the recursive call, no fuel ever suffices. -/
def variableHash : Nat → Variable → Option Int
  | 0, _ => none
  | fuel + 1, v => variableHash fuel v

/-- Realising a Python `set` of `Variable`s hashes every element, so it is
subject to `variableHash`'s fuel; an empty list needs no hashing. -/
def pySetOfVariables : Nat → List Variable → Option (List Variable)
  | _, [] => some []
  | fuel, v :: rest =>
    match variableHash fuel v with
    | none => none
    | some _ => (pySetOfVariables fuel rest).map (fun s => v :: s)

/-- Python `list_union(l1, l2) = list(set(l1).union(set(l2)))` from the root
`utils.py`; the union of two realised sets is only ever reached when both
lists are empty, and is rendered as deduplicating concatenation. -/
def list_union (fuel : Nat) (l1 l2 : List Variable) : Option (List Variable) :=
  match pySetOfVariables fuel l1 with
  | none => none
  | some s1 =>
    match pySetOfVariables fuel l2 with
    | none => none
    | some s2 => some (s1 ++ s2.filter (fun v => !s1.contains v))

/-- The `Label` class of the alternative variant: plain source and sanitiser
lists. -/
structure AltLabel where
  sources : List Variable
  sanitisers : List Variable
deriving Repr, DecidableEq

/-- Python `Label.combine` of the alternative variant: `list_union` of the
sources and of the sanitisers. -/
def AltLabel.combine (fuel : Nat) (l1 l2 : AltLabel) : Option AltLabel :=
  match list_union fuel l1.sources l2.sources with
  | none => none
  | some s =>
    match list_union fuel l1.sanitisers l2.sanitisers with
    | none => none
    | some z => some ⟨s, z⟩

theorem variableHash_eq_none : ∀ (fuel : Nat) (v : Variable), variableHash fuel v = none := by
  intro fuel
  induction fuel with
  | zero => intro v; rfl
  | succ n ih => intro v; simpa [variableHash] using ih v

-- ### Concrete programs and policies used by the scenario claims

/-- The scenario policy `{v: sources=[a], sanitizers=[], sinks=[sink], implicit=no}`. -/
def c1Policy : Policy := ⟨[⟨"v", ["a"], [], ["sink"], "no"⟩]⟩

/-- The visitor's starting state: empty store, no vulnerabilities, empty
conditions stack. -/
def initialVState : VState := ⟨⟨[]⟩, ⟨[]⟩, []⟩

/-- The program `sink(a)`: one `Expr` statement wrapping
`Call(Name(sink), [Name(a)])` at line 1. -/
def c1Program : List PyStmt := [.exprStmt (.call "sink" 1 [.name "a" 1])]

/-- The program `if c: a = src()` (line 1) followed by `sink(a)` (line 2). -/
def c3Program : List PyStmt :=
  [.ifStmt (.name "c" 1) [.assign [.name "a" 1] (.call "src" 1 [])] [],
   .exprStmt (.call "sink" 2 [.name "a" 2])]

/-- C1: analysing `sink(a)` under the policy with one pattern
`{v: sources=[a], sanitizers=[], sinks=[sink], implicit=no}` from the empty
store records exactly one observation for vuln `v`, serialized as
vulnerability `v_1`, source `["a",1]`, sink `["sink",1]`,
`unsanitized_flows="yes"`, `sanitized_flows=[]`. -/
theorem c1_direct_source_to_sink :
    reprRecords (visit_stmts c1Policy initialVState c1Program).vulnerabilities =
      [{ vulnerability := "v_1", source := ("a", 1), sink := ("sink", 1),
         unsanitized_flows := "yes", sanitized_flows := [] }] ∧
    (visit_stmts c1Policy initialVState c1Program).vulnerabilities.vulnerabilities =
      [("v", [(⟨[(⟨"a", 1, true⟩, [[]])]⟩, ⟨"sink", 1, true⟩)])] := by decide

/-- C3, counterexample: analysing `if c: a = src()` then `sink(a)` under the
same policy yields no observation with source `["src",1]` at all — the two
serialized records both cite source `["a",2]`. -/
theorem c3_counterexample :
    (reprRecords (visit_stmts c1Policy initialVState c3Program).vulnerabilities).all
      (fun r => r.source != ("src", 1)) = true ∧
    reprRecords (visit_stmts c1Policy initialVState c3Program).vulnerabilities =
      [⟨"v_1", ("a", 2), ("sink", 2), "yes", []⟩,
       ⟨"v_2", ("a", 2), ("sink", 2), "yes", []⟩] := by decide

/-- C3, amended: the analysis produces, at the sink, exactly two source
observations for variable `a`, both with source `["a",2]` and the unsanitized
empty flow: the synthetic line `-1` source from the branch where `a` is
undefined, rewritten to line 2 at the read, and the fresh source observation
of `a` itself at the read; no `["src",1]` observation arises because
`visit_Call` discards the callee's multilabel and `src` is not a policy
source. -/
theorem c3_branch_merge_observations :
    (visit_stmts c1Policy initialVState c3Program).vulnerabilities.vulnerabilities =
      [("v", [(⟨[(⟨"a", 2, true⟩, [[]]), (⟨"a", 2, true⟩, [[]])]⟩, ⟨"sink", 2, true⟩)])] := by
  decide

/-- The pattern of the C4 failing input. -/
def c4Pattern : Pattern := ⟨"v", ["a"], [], ["sink"], "no"⟩

/-- C4: evaluating `MultiLabel.__init__` as written on one pattern and two
labels that both filter to a non-empty label for vuln `v` stores the bare
one-element list `[new_label]` (an `LMValue.lst`, not a Label), dropping the
first filtered label — the claim that every present vuln name maps to a Label
value fails on this input. -/
theorem c4_init_collision_shape :
    MultiLabel.initRaw [c4Pattern]
        [Label.fromSource ⟨"a", 1, true⟩, Label.fromSource ⟨"a", 2, true⟩] =
      [("v", .lst [⟨[(⟨"a", 2, true⟩, [[]])]⟩])] := by decide

/-- C10: in the alternative analyser variant, `hash(v)` produces no value for
any fuel bound (the self-recursion of `Variable.__hash__` never returns), and
consequently `Label.combine` — which realises Python sets of the labels'
variables through `list_union` — produces no value for any fuel whenever the
first label has at least one source. -/
theorem c10_variant_hash_diverges :
    (∀ (fuel : Nat) (v : Variable), variableHash fuel v = none) ∧
    (∀ (fuel : Nat) (l1 l2 : AltLabel), l1.sources ≠ [] →
      AltLabel.combine fuel l1 l2 = none) := by
  refine ⟨variableHash_eq_none, fun fuel l1 l2 h => ?_⟩
  match hs : l1.sources with
  | [] => exact absurd hs h
  | v :: rest =>
    simp only [AltLabel.combine, list_union, hs, pySetOfVariables, variableHash_eq_none]

/-- C10, witness: the divergence at fuel 5 on the variable `("x", 1)` and on a
label whose only source is that variable. -/
theorem c10_variant_hash_diverges_witness :
    variableHash 5 ⟨"x", 1⟩ = none ∧
    AltLabel.combine 5 ⟨[⟨"x", 1⟩], []⟩ ⟨[], []⟩ = none := by
  exact ⟨c10_variant_hash_diverges.1 5 ⟨"x", 1⟩,
    c10_variant_hash_diverges.2 5 ⟨[⟨"x", 1⟩], []⟩ ⟨[], []⟩ (by simp)⟩

theorem while_fix_loop_stop (bp : VState → VState × Bool) (tu : VState → VState)
    (fuel : Nat) (st : VState) (states : List MultiLabelling) (count : Nat)
    (h : (bp st).2 = true ∨
      states.any (fun m => MultiLabelling.beq (bp st).1.multilabelling m) = true) :
    while_fix_loop bp tu (fuel + 1) st states count = ((bp st).1, (bp st).2, count + 1) := by
  rcases h with h | h
  · simp [while_fix_loop, h]
  · cases hb : (bp st).2 with
    | true => simp [while_fix_loop, hb]
    | false => simp [while_fix_loop, hb, h]

theorem while_fix_loop_count_le (bp : VState → VState × Bool) (tu : VState → VState) :
    ∀ (fuel : Nat) (st : VState) (states : List MultiLabelling) (count : Nat),
      (while_fix_loop bp tu fuel st states count).2.2 ≤ count + fuel := by
  intro fuel
  induction fuel with
  | zero => intro st states count; simp [while_fix_loop]
  | succ n ih =>
    intro st states count
    simp only [while_fix_loop]
    cases hb : (bp st).2 with
    | true => simp [hb]
    | false =>
      cases hm : states.any (fun m => MultiLabelling.beq (bp st).1.multilabelling m) with
      | true => simp [hb, hm]
      | false =>
        simp only [Bool.false_eq_true, if_false]
        have := ih (tu (bp st).1) (states ++ [(bp st).1.multilabelling]) (count + 1)
        omega

/-- C6: whenever one pass of the loop body leaves the store unchanged (by
`MultiLabelling.__eq__`), the bounded fixpoint loop of `visit_While` stops
after exactly one iteration — the history check finds the initial store in
`ml_states` — and in all cases the loop performs at most 10000 iterations. -/
theorem c6_while_fixpoint (bodyPass : VState → VState × Bool) (testUpdate : VState → VState)
    (st : VState) :
    (MultiLabelling.beq (bodyPass st).1.multilabelling st.multilabelling = true →
      (visit_While_loop bodyPass testUpdate st).2.2 = 1) ∧
    (visit_While_loop bodyPass testUpdate st).2.2 ≤ 10000 := by
  constructor
  · intro h
    have h10 : (10000 : Nat) = 9999 + 1 := by norm_num
    rw [visit_While_loop, h10, while_fix_loop_stop]
    · right; simp [h]
  · have := while_fix_loop_count_le bodyPass testUpdate 10000 st [st.multilabelling] 0
    simpa [visit_While_loop] using this

theorem c6_while_fixpoint_witness :
    (visit_While_loop (fun s => (s, false)) id initialVState).2.2 = 1 ∧
    (visit_While_loop (fun s => (s, false)) id initialVState).2.2 ≤ 10000 :=
  ⟨(c6_while_fixpoint (fun s => (s, false)) id initialVState).1 (by decide),
   (c6_while_fixpoint (fun s => (s, false)) id initialVState).2⟩

theorem dictContains_dictSet {α : Type} (m : List (String × α)) (k : String) (v : α) :
    dictContains (dictSet m k v) k = true := by
  rw [dictSet]
  by_cases hc : dictContains m k = true
  · rw [if_pos hc]
    obtain ⟨e, he, hek⟩ := List.any_eq_true.1 hc
    exact List.any_eq_true.2 ⟨(k, v), List.mem_map.2 ⟨e, he, by simp [hek]⟩, by simp⟩
  · rw [if_neg hc]
    exact List.any_eq_true.2 ⟨(k, v), by simp, by simp⟩

/-- C9: visiting a `Name` node for a variable the store does not hold returns
the uninitialised-variable multilabel and leaves the state — in particular the
store — unchanged, so `is_variable_initialised` still reports the variable as
not initialised after the read; by contrast `visit_Call` always marks the
callee name as initialised in the store. -/
theorem c9_uninitialised_read (pol : Policy) (st : VState) (name : String) (lineno : Int)
    (h : st.multilabelling.is_variable_initialised name = false) :
    visit_expr pol st (.name name lineno) =
      (st, some (some [⟨name, lineno, true⟩],
        MultiLabel.create_for_uninitialised_variable pol ⟨name, lineno, true⟩)) ∧
    (visit_expr pol st (.name name lineno)).1.multilabelling.is_variable_initialised
      name = false ∧
    (∀ (funcId : String) (funcLine : Int) (args : List PyExpr) (st2 : VState),
      (visit_expr pol st2 (.call funcId funcLine args)).1.multilabelling.is_variable_initialised
        funcId = true) := by
  refine ⟨?_, ?_, ?_⟩
  · simp [visit_expr, get_variable_multilabel, h]
  · simp [visit_expr, h]
  · intro funcId funcLine args st2
    simp [visit_expr, MultiLabelling.set_multilabel, MultiLabelling.is_variable_initialised,
      dictContains_dictSet]

theorem c9_uninitialised_read_witness :
    initialVState.multilabelling.is_variable_initialised "z" = false ∧
    visit_expr c1Policy initialVState (.name "z" 3) =
      (initialVState, some (some [⟨"z", 3, true⟩],
        MultiLabel.create_for_uninitialised_variable c1Policy ⟨"z", 3, true⟩)) :=
  ⟨by decide, (c9_uninitialised_read c1Policy initialVState "z" 3 (by decide)).1⟩

-- ### C2: duplicate-freedom of observation lists

/-- Duplicate-freedom of one vuln name's observation list under the structural
`(Label, sink)` equality used by the source's membership test (later entry
tested on the left). -/
def dupFreeObsList (l : List Obs) : Prop :=
  l.Pairwise (fun x y => obsBeq y x = false)

/-- Duplicate-freedom of every observation list of a `Vulnerabilities`
accumulator. -/
def Vulnerabilities.DupFree (v : Vulnerabilities) : Prop :=
  ∀ e ∈ v.vulnerabilities, dupFreeObsList e.2

theorem foldl_preserve {α β : Type} (P : β → Prop) (f : β → α → β)
    (hstep : ∀ b a, P b → P (f b a)) :
    ∀ (l : List α) (b : β), P b → P (l.foldl f b) := by
  intro l
  induction l with
  | nil => intro b hb; exact hb
  | cons x xs ih => intro b hb; exact ih (f b x) (hstep b x hb)

theorem mem_dictSet {α : Type} {m : List (String × α)} {k : String} {v : α}
    {e : String × α} (h : e ∈ dictSet m k v) : e = (k, v) ∨ e ∈ m := by
  rw [dictSet] at h
  by_cases hc : dictContains m k = true
  · rw [if_pos hc] at h
    obtain ⟨x, hx, hfx⟩ := List.mem_map.1 h
    by_cases hxk : (x.1 == k) = true
    · left; rw [if_pos hxk] at hfx; exact hfx.symm
    · right; rw [if_neg hxk] at hfx; exact hfx ▸ hx
  · rw [if_neg hc] at h
    rcases List.mem_append.1 h with hm | hm
    · right; exact hm
    · left; simpa using hm

theorem dictFind_some_mem {α : Type} {m : List (String × α)} {k : String} {x : α}
    (h : dictFind m k = some x) : ∃ e ∈ m, e.2 = x := by
  rw [dictFind] at h
  cases hf : m.find? (fun e => e.1 == k) with
  | none => rw [hf] at h; simp at h
  | some e =>
    rw [hf] at h
    simp only [Option.map_some', Option.some.injEq] at h
    exact ⟨e, List.mem_of_find?_eq_some hf, h⟩

/-- The step of `add_vulnerability`'s vuln loop preserves duplicate-freedom of
every observation list: the membership guard appends only observations no
existing entry equals. -/
theorem add_vulnerability_step_preserves (n : Node) :
    ∀ (entries : List (String × Label)) (acc : List (String × List Obs)),
      (∀ x ∈ acc, dupFreeObsList x.2) →
      ∀ x ∈ entries.foldl (fun acc e =>
          match dictFind acc e.1 with
          | some lst =>
            if lst.any (fun o => obsBeq (e.2, n) o) then acc
            else dictSet acc e.1 (lst ++ [(e.2, n)])
          | none => dictSet acc e.1 [(e.2, n)]) acc, dupFreeObsList x.2 := by
  intro entries
  induction entries with
  | nil => intro acc hacc; exact hacc
  | cons e rest ih =>
    intro acc hacc
    refine ih _ ?_
    intro x
    cases hf : dictFind acc e.1 with
  | none =>
    simp only [hf]
    intro hx
    rcases mem_dictSet hx with rfl | hm
    · exact List.pairwise_singleton _ _
    · exact hacc x hm
  | some lst =>
    simp only [hf]
    by_cases hany : lst.any (fun o => obsBeq (e.2, n) o) = true
    · rw [if_pos hany]; exact hacc x
    · rw [if_neg hany]
      intro hx
      rcases mem_dictSet hx with rfl | hm
      · have hlst : dupFreeObsList lst := by
          obtain ⟨en, hen, h2⟩ := dictFind_some_mem hf
          exact h2 ▸ hacc en hen
        refine List.pairwise_append.2 ⟨hlst, List.pairwise_singleton _ _, ?_⟩
        intro a ha b hb
        have hb2 : b = (e.2, n) := by simpa using hb
        subst hb2
        have := List.any_eq_false.1 (eq_false_of_ne_true hany) a ha
        simpa using this
      · exact hacc x hm

/-- C2, amended: `add_vulnerability` preserves duplicate-freedom of every
observation list of the accumulator. -/
theorem c2_add_vulnerability_preserves_dupfree (v : Vulnerabilities) (pol : Policy)
    (ml : MultiLabel) (n : Node) (h : v.DupFree) :
    (v.add_vulnerability pol ml n).DupFree :=
  add_vulnerability_step_preserves n
    (pol.get_illegal_flows_multilabel ml n).label_map v.vulnerabilities h

/-- C2, amended theorem witness ingredients. -/
def c2Obs : Obs := (⟨[(⟨"a", 1, true⟩, [[]])]⟩, ⟨"sink", 1, true⟩)

/-- A one-entry accumulator used by the C2 counterexample and witness. -/
def c2Vulns : Vulnerabilities := ⟨[("v", [c2Obs])]⟩

/-- C2, witness: adding to the empty accumulator under the scenario policy
keeps it duplicate-free. -/
theorem c2_add_vulnerability_preserves_dupfree_witness :
    ((⟨[]⟩ : Vulnerabilities).add_vulnerability c1Policy
      ⟨[("v", Label.fromSource ⟨"a", 1, true⟩)]⟩ ⟨"sink", 1, true⟩).DupFree :=
  c2_add_vulnerability_preserves_dupfree ⟨[]⟩ c1Policy
    ⟨[("v", Label.fromSource ⟨"a", 1, true⟩)]⟩ ⟨"sink", 1, true⟩ (by intro e he; simp at he)

/-- C2, counterexample: `conciliate_vulnerabilities` does not preserve
duplicate-freedom — joining a duplicate-free accumulator with itself appends
the other side's whole list (its guard compares a list against pair entries
and never fires), duplicating the observation. -/
theorem c2_counterexample :
    c2Vulns.DupFree ∧ ¬ (c2Vulns.conciliate_vulnerabilities c2Vulns).DupFree := by
  constructor
  · intro e he
    have : e = ("v", [c2Obs]) := by simpa [c2Vulns] using he
    subst this
    exact List.pairwise_singleton _ _
  · intro h
    have h1 : (c2Vulns.conciliate_vulnerabilities c2Vulns).vulnerabilities =
        [("v", [c2Obs, c2Obs])] := by decide
    have h2 := h ("v", [c2Obs, c2Obs]) (by rw [h1]; simp)
    have h3 := (List.pairwise_cons.1 h2).1 c2Obs (by simp)
    have h4 : obsBeq c2Obs c2Obs = true := by decide
    rw [h4] at h3
    exact absurd h3 (by simp)

-- ### C8: the serialization closed form

/-- The flattened `(source_pair, sink)` observation sequence of one vuln
name's entries, in insertion order. -/
def obsPairs : List Obs → List (LPair × Node)
  | [] => []
  | o :: rest => o.1.pairs.map (fun p => (p, o.2)) ++ obsPairs rest

/-- Modelled from the spec (output schema, section 6): the record prescribed
for the `i`-th (1-based) `(source_pair, sink)` observation of a vuln name —
index suffix `_i`, `unsanitized_flows = "yes"` iff some flow for the source is
the empty chain `[]`, `sanitized_flows` exactly the non-empty flows. -/
def specRecord (vn : String) (i : Nat) (ps : LPair × Node) : OutRecord :=
  { vulnerability := vn ++ "_" ++ toString i
    source := (ps.1.1.name, ps.1.1.line)
    sink := (ps.2.name, ps.2.line)
    unsanitized_flows := if ps.1.2.contains ([] : SanFlow) then "yes" else "no"
    sanitized_flows := ps.1.2.filter (fun f => !f.isEmpty) }

theorem beq_length_zero_eq_beq_nil (f : SanFlow) : (f.length == 0) = (([] : SanFlow) == f) := by
  cases f with
  | nil => decide
  | cons a as => simp

theorem any_length_zero_eq_contains_nil (fs : List SanFlow) :
    (fs.any (fun f => f.length == 0)) = fs.contains ([] : SanFlow) := by
  rw [List.contains_eq_any_beq]
  induction fs with
  | nil => rfl
  | cons f rest ih => rw [List.any_cons, List.any_cons, ih, beq_length_zero_eq_beq_nil]

theorem filter_length_pos_eq_filter_not_empty (fs : List SanFlow) :
    fs.filter (fun f => f.length > 0) = fs.filter (fun f => !f.isEmpty) := by
  apply List.filter_congr
  intro x _
  cases x <;> simp

theorem pairRecord_eq_spec (vn : String) (i : Nat) (sink : Node) (p : LPair) :
    pairRecord vn i sink p = specRecord vn i (p, sink) := by
  unfold pairRecord specRecord
  rw [OutRecord.mk.injEq]
  exact ⟨rfl, rfl, rfl, by rw [any_length_zero_eq_contains_nil],
    filter_length_pos_eq_filter_not_empty _⟩

theorem recordsForPairs_eq (vn : String) (sink : Node) :
    ∀ (ps : List LPair) (i : Nat),
      recordsForPairs vn sink ps i =
        ((List.enumFrom i ps).map (fun ip => specRecord vn ip.1 (ip.2, sink)),
          i + ps.length) := by
  intro ps
  induction ps with
  | nil => intro i; simp [recordsForPairs]
  | cons p rest ih =>
    intro i
    rw [recordsForPairs, ih (i + 1), List.enumFrom_cons, List.map_cons]
    rw [Prod.mk.injEq]
    refine ⟨?_, by simp only [List.length_cons]; omega⟩
    rw [pairRecord_eq_spec]

theorem recordsForEntries_eq (vn : String) :
    ∀ (entries : List Obs) (i : Nat),
      recordsForEntries vn entries i =
        (List.enumFrom i (obsPairs entries)).map (fun ie => specRecord vn ie.1 ie.2) := by
  intro entries
  induction entries with
  | nil => intro i; simp [recordsForEntries, obsPairs]
  | cons o rest ih =>
    intro i
    obtain ⟨l, s⟩ := o
    rw [recordsForEntries, recordsForPairs_eq, obsPairs, List.enumFrom_append,
      List.map_append, List.enumFrom_map, ih]
    simp [List.length_map, Function.comp, Prod.map]

/-- C8: `Vulnerabilities.__repr__` serializes, for every vuln name in
insertion order, exactly one record per flattened `(source_pair, sink)`
observation of that name, carrying the 1-based counter over those
observations as its index suffix, `unsanitized_flows = "yes"` iff one of the
pair's flows is the empty chain `[]`, and as `sanitized_flows` exactly the
pair's non-empty flows. -/
theorem c8_repr_spec (v : Vulnerabilities) :
    reprRecords v = v.vulnerabilities.foldr (fun e acc =>
      (List.enumFrom 1 (obsPairs e.2)).map (fun ie => specRecord e.1 ie.1 ie.2) ++ acc) [] := by
  rw [reprRecords]
  induction v.vulnerabilities with
  | nil => rfl
  | cons e rest ih => simp [recordsForEntries_eq, ih]

-- ### C7: the conciliation specification

theorem conciliateEntry_key (pol : Policy) (other : MultiLabelling) (e : String × MultiLabel) :
    (conciliateEntry pol other e).1 = e.1 := by
  unfold conciliateEntry
  cases dictFind other.variable_map e.1 <;> rfl

theorem conciliateMissingEntry_key (pol : Policy) (e : String × MultiLabel) :
    (conciliateMissingEntry pol e).1 = e.1 := rfl

theorem any_key_map_conc (pol : Policy) (b : MultiLabelling) (k : String) :
    ∀ l : List (String × MultiLabel),
      (l.map (conciliateEntry pol b)).any (fun e => e.1 == k) =
        l.any (fun e => e.1 == k) := by
  intro l
  induction l with
  | nil => rfl
  | cons e rest ih =>
    rw [List.map_cons, List.any_cons, List.any_cons, ih, conciliateEntry_key]

theorem any_key_map_missing (pol : Policy) (k : String) :
    ∀ l : List (String × MultiLabel),
      (l.map (conciliateMissingEntry pol)).any (fun e => e.1 == k) =
        l.any (fun e => e.1 == k) := by
  intro l
  induction l with
  | nil => rfl
  | cons e rest ih =>
    rw [List.map_cons, List.any_cons, List.any_cons, ih, conciliateMissingEntry_key]

theorem any_key_filter_not_contains {a : List (String × MultiLabel)} (k : String)
    (ha : dictContains a k = false) :
    ∀ l : List (String × MultiLabel),
      (l.filter (fun e => !dictContains a e.1)).any (fun e => e.1 == k) =
        l.any (fun e => e.1 == k) := by
  intro l
  induction l with
  | nil => rfl
  | cons e rest ih =>
    by_cases hek : (e.1 == k) = true
    · have hk : e.1 = k := eq_of_beq hek
      have hq : (!dictContains a e.1) = true := by rw [hk, ha]; rfl
      rw [List.filter_cons, if_pos hq, List.any_cons, List.any_cons, ih]
    · rw [List.filter_cons]
      by_cases hq : (!dictContains a e.1) = true
      · rw [if_pos hq, List.any_cons, List.any_cons, ih]
      · rw [if_neg hq, List.any_cons, ih]
        have hek2 := eq_false_of_ne_true hek
        rw [hek2, Bool.false_or]

theorem dictFind_map_conc (pol : Policy) (b : MultiLabelling) {k : String} {ma : MultiLabel} :
    ∀ {l : List (String × MultiLabel)}, dictFind l k = some ma →
      dictFind (l.map (conciliateEntry pol b)) k =
        some (match dictFind b.variable_map k with
          | some m2 => MultiLabel.combine ma m2
          | none => MultiLabel.combine ma
              (MultiLabel.create_for_uninitialised_variable pol ⟨k, -1, true⟩)) := by
  intro l
  induction l with
  | nil => intro h; simp [dictFind] at h
  | cons e rest ih =>
    intro h
    by_cases hek : (e.1 == k) = true
    · have hk : e.1 = k := eq_of_beq hek
      have hma : e.2 = ma := by
        rw [dictFind, @List.find?_cons_of_pos (String × MultiLabel) (fun x => x.1 == k) e rest hek] at h
        simpa using h
      have hek2 : ((conciliateEntry pol b e).1 == k) = true := by
        rw [conciliateEntry_key]; exact hek
      rw [List.map_cons, dictFind,
        @List.find?_cons_of_pos (String × MultiLabel) (fun x => x.1 == k) (conciliateEntry pol b e) _ hek2]
      subst hk hma
      unfold conciliateEntry
      cases dictFind b.variable_map e.1 <;> simp
    · have hek2 : ¬ ((conciliateEntry pol b e).1 == k) = true := by
        rw [conciliateEntry_key]; exact hek
      rw [dictFind, @List.find?_cons_of_neg (String × MultiLabel) (fun x => x.1 == k) e rest hek] at h
      rw [List.map_cons, dictFind,
        @List.find?_cons_of_neg (String × MultiLabel) (fun x => x.1 == k) (conciliateEntry pol b e) _ hek2]
      exact ih h

theorem dictFind_map_conc_none (pol : Policy) (b : MultiLabelling) {k : String} :
    ∀ {l : List (String × MultiLabel)}, dictFind l k = none →
      dictFind (l.map (conciliateEntry pol b)) k = none := by
  intro l
  induction l with
  | nil => intro _; rfl
  | cons e rest ih =>
    intro h
    by_cases hek : (e.1 == k) = true
    · rw [dictFind, @List.find?_cons_of_pos (String × MultiLabel) (fun x => x.1 == k) e rest hek] at h
      simp at h
    · have hek2 : ¬ ((conciliateEntry pol b e).1 == k) = true := by
        rw [conciliateEntry_key]; exact hek
      rw [dictFind, @List.find?_cons_of_neg (String × MultiLabel) (fun x => x.1 == k) e rest hek] at h
      rw [List.map_cons, dictFind,
        @List.find?_cons_of_neg (String × MultiLabel) (fun x => x.1 == k) (conciliateEntry pol b e) _ hek2]
      exact ih h

theorem dictContains_false_of_dictFind_none {α : Type} {m : List (String × α)} {k : String}
    (h : dictFind m k = none) : dictContains m k = false := by
  rw [dictFind] at h
  cases hf : m.find? (fun e => e.1 == k) with
  | none =>
    rw [List.find?_eq_none] at hf
    exact List.any_eq_false.2 hf
  | some e => rw [hf] at h; simp at h

theorem dictFind_filter_map_missing (pol : Policy) {a : List (String × MultiLabel)} {k : String}
    {mb : MultiLabel} (ha : dictContains a k = false) :
    ∀ {l : List (String × MultiLabel)}, dictFind l k = some mb →
      dictFind ((l.filter (fun e => !dictContains a e.1)).map
          (conciliateMissingEntry pol)) k =
        some (MultiLabel.combine
          (MultiLabel.create_for_uninitialised_variable pol ⟨k, -1, true⟩) mb) := by
  intro l
  induction l with
  | nil => intro h; simp [dictFind] at h
  | cons e rest ih =>
    intro h
    by_cases hek : (e.1 == k) = true
    · have hk : e.1 = k := eq_of_beq hek
      have hmb : e.2 = mb := by
        rw [dictFind, @List.find?_cons_of_pos (String × MultiLabel) (fun x => x.1 == k) e rest hek] at h
        simpa using h
      have hq : (!dictContains a e.1) = true := by rw [hk, ha]; rfl
      have hek2 : ((conciliateMissingEntry pol e).1 == k) = true := by
        rw [conciliateMissingEntry_key]; exact hek
      rw [List.filter_cons, if_pos hq, List.map_cons, dictFind,
        @List.find?_cons_of_pos (String × MultiLabel) (fun x => x.1 == k) (conciliateMissingEntry pol e) _ hek2]
      subst hmb
      unfold conciliateMissingEntry
      rw [hk]
      rfl
    · rw [dictFind, @List.find?_cons_of_neg (String × MultiLabel) (fun x => x.1 == k) e rest hek] at h
      rw [List.filter_cons]
      by_cases hq : (!dictContains a e.1) = true
      · have hek2 : ¬ ((conciliateMissingEntry pol e).1 == k) = true := by
          rw [conciliateMissingEntry_key]; exact hek
        rw [if_pos hq, List.map_cons, dictFind,
          @List.find?_cons_of_neg (String × MultiLabel) (fun x => x.1 == k) (conciliateMissingEntry pol e) _ hek2]
        exact ih h
      · rw [if_neg hq]
        exact ih h

/-- C7: after `A.conciliate_multilabelling(policy, B)` the store's domain is
the union of the two original domains; a variable present in both maps is
bound to the `MultiLabel.combine` of its two multilabels, and a variable
present in only one map is bound to the combine of its one multilabel with
`MultiLabel.create_for_uninitialised_variable(policy, Node(name, -1))`, the
synthetic source at line `-1` (the uninitialised multilabel standing on the
side the variable is missing from). -/
theorem c7_conciliate_spec (pol : Policy) (a b : MultiLabelling) :
    (∀ k : String, dictContains (a.conciliate_multilabelling pol b).variable_map k =
      (dictContains a.variable_map k || dictContains b.variable_map k)) ∧
    (∀ (k : String) (ma mb : MultiLabel),
      dictFind a.variable_map k = some ma → dictFind b.variable_map k = some mb →
      dictFind (a.conciliate_multilabelling pol b).variable_map k =
        some (MultiLabel.combine ma mb)) ∧
    (∀ (k : String) (ma : MultiLabel),
      dictFind a.variable_map k = some ma → dictFind b.variable_map k = none →
      dictFind (a.conciliate_multilabelling pol b).variable_map k =
        some (MultiLabel.combine ma
          (MultiLabel.create_for_uninitialised_variable pol ⟨k, -1, true⟩))) ∧
    (∀ (k : String) (mb : MultiLabel),
      dictFind a.variable_map k = none → dictFind b.variable_map k = some mb →
      dictFind (a.conciliate_multilabelling pol b).variable_map k =
        some (MultiLabel.combine
          (MultiLabel.create_for_uninitialised_variable pol ⟨k, -1, true⟩) mb)) := by
  refine ⟨?_, ?_, ?_, ?_⟩
  · intro k
    unfold MultiLabelling.conciliate_multilabelling
    rw [dictContains, List.any_append, any_key_map_conc, any_key_map_missing]
    rw [dictContains, dictContains]
    by_cases ha : a.variable_map.any (fun e => e.1 == k) = true
    · rw [ha, Bool.true_or, Bool.true_or]
    · have ha2 := eq_false_of_ne_true ha
      rw [ha2, Bool.false_or, Bool.false_or,
        any_key_filter_not_contains k (show dictContains a.variable_map k = false from ha2)]
  · intro k ma mb hfa hfb
    unfold MultiLabelling.conciliate_multilabelling
    rw [dictFind, List.find?_append]
    have h1 := dictFind_map_conc pol b hfa
    rw [dictFind] at h1
    cases hf1 : (a.variable_map.map (conciliateEntry pol b)).find?
        (fun e => e.1 == k) with
    | none => rw [hf1] at h1; simp at h1
    | some e =>
      rw [hf1] at h1
      rw [Option.or_some]
      rw [hfb] at h1
      simpa using h1
  · intro k ma hfa hfb
    unfold MultiLabelling.conciliate_multilabelling
    rw [dictFind, List.find?_append]
    have h1 := dictFind_map_conc pol b hfa
    rw [dictFind] at h1
    cases hf1 : (a.variable_map.map (conciliateEntry pol b)).find?
        (fun e => e.1 == k) with
    | none => rw [hf1] at h1; simp at h1
    | some e =>
      rw [hf1] at h1
      rw [Option.or_some]
      rw [hfb] at h1
      simpa using h1
  · intro k mb hfa hfb
    unfold MultiLabelling.conciliate_multilabelling
    rw [dictFind, List.find?_append]
    have h1 := dictFind_map_conc_none pol b hfa
    rw [dictFind] at h1
    cases hf1 : (a.variable_map.map (conciliateEntry pol b)).find?
        (fun e => e.1 == k) with
    | some e => rw [hf1] at h1; simp at h1
    | none =>
      rw [Option.none_or]
      have h2 := dictFind_filter_map_missing pol
        (dictContains_false_of_dictFind_none hfa) hfb
      rw [dictFind] at h2
      exact h2

/-- C7, witness: conciliating the store binding only `x` with the store
binding only `y` under the scenario policy yields the prescribed combines
with the synthetic uninitialised multilabel on each one-sided variable. -/
theorem c7_conciliate_spec_witness :
    dictFind ((MultiLabelling.mk [("x", MultiLabel.create_empty)]).conciliate_multilabelling
        c1Policy ⟨[("y", MultiLabel.create_empty)]⟩).variable_map "x" =
      some (MultiLabel.combine MultiLabel.create_empty
        (MultiLabel.create_for_uninitialised_variable c1Policy ⟨"x", -1, true⟩)) ∧
    dictFind ((MultiLabelling.mk [("x", MultiLabel.create_empty)]).conciliate_multilabelling
        c1Policy ⟨[("y", MultiLabel.create_empty)]⟩).variable_map "y" =
      some (MultiLabel.combine
        (MultiLabel.create_for_uninitialised_variable c1Policy ⟨"y", -1, true⟩)
        MultiLabel.create_empty) :=
  ⟨(c7_conciliate_spec c1Policy ⟨[("x", MultiLabel.create_empty)]⟩
      ⟨[("y", MultiLabel.create_empty)]⟩).2.2.1 "x" MultiLabel.create_empty rfl rfl,
   (c7_conciliate_spec c1Policy ⟨[("x", MultiLabel.create_empty)]⟩
      ⟨[("y", MultiLabel.create_empty)]⟩).2.2.2 "y" MultiLabel.create_empty rfl rfl⟩

-- ### C5: algebra of Label.combine

theorem nodeBeq_of_symm {a b : Node} (h : nodeBeq a b = true) : nodeBeq b a = true := by
  rw [nodeBeq_symm]; exact h

theorem nodeBeq_congr_right {b p : Node} (h : nodeBeq b p = true) (x : Node) :
    nodeBeq x b = nodeBeq x p := by
  rw [Bool.eq_iff_iff]
  exact ⟨fun hxb => nodeBeq_trans hxb h, fun hxp => nodeBeq_trans hxp (nodeBeq_of_symm h)⟩

theorem flowBeq_of_symm {f g : SanFlow} (h : flowBeq f g = true) : flowBeq g f = true := by
  rw [flowBeq_symm]; exact h

theorem flowMem_insFlow_mono {f : SanFlow} {acc : List SanFlow} (g : SanFlow)
    (h : flowMem f acc = true) : flowMem f (insFlow acc g) = true := by
  rw [insFlow]
  by_cases hm : flowMem g acc = true
  · rw [if_pos hm]; exact h
  · rw [if_neg hm, flowMem, List.any_append]
    rw [flowMem] at h
    rw [h, Bool.true_or]

theorem flowMem_addFlows_mono {f : SanFlow} :
    ∀ (F : List SanFlow) {E : List SanFlow}, flowMem f E = true →
      flowMem f (addFlows E F) = true := by
  intro F
  induction F with
  | nil => intro E h; exact h
  | cons g F ih =>
    intro E h
    rw [addFlows, List.foldl_cons]
    exact ih (flowMem_insFlow_mono g h)

theorem flowMem_of_beq {f g : SanFlow} {X : List SanFlow} (hfg : flowBeq f g = true)
    (h : flowMem g X = true) : flowMem f X = true := by
  obtain ⟨x, hx, hgx⟩ := List.any_eq_true.1 h
  exact List.any_eq_true.2 ⟨x, hx, flowBeq_trans hfg hgx⟩

theorem flowMem_addFlows_of_mem_right {f : SanFlow} :
    ∀ (F : List SanFlow) {E : List SanFlow}, flowMem f F = true →
      flowMem f (addFlows E F) = true := by
  intro F
  induction F with
  | nil => intro E h; simp [flowMem] at h
  | cons g F ih =>
    intro E h
    rw [flowMem, List.any_cons] at h
    rw [addFlows, List.foldl_cons]
    rcases Bool.or_eq_true_iff.1 h with hfg | hrest
    · refine flowMem_addFlows_mono F ?_
      rw [insFlow]
      by_cases hm : flowMem g E = true
      · rw [if_pos hm]; exact flowMem_of_beq hfg hm
      · rw [if_neg hm, flowMem, List.any_append]
        have : flowMem f [g] = true := by
          rw [flowMem, List.any_cons]
          rw [hfg, Bool.true_or]
        rw [flowMem] at this
        rw [this, Bool.or_true]
    · exact ih hrest

theorem addFlows_insFlow (E F : List SanFlow) (f : SanFlow) :
    addFlows E (insFlow F f) = insFlow (addFlows E F) f := by
  by_cases hm : flowMem f F = true
  · rw [insFlow, if_pos hm, insFlow,
      if_pos (flowMem_addFlows_of_mem_right F hm)]
  · rw [insFlow, if_neg hm, addFlows, List.foldl_append]
    rfl

theorem addFlows_assoc (E F G : List SanFlow) :
    addFlows (addFlows E F) G = addFlows E (addFlows F G) := by
  induction G generalizing F with
  | nil => rfl
  | cons g G ih =>
    have h1 : addFlows F (g :: G) = addFlows (insFlow F g) G := by
      rw [addFlows, List.foldl_cons]; rfl
    rw [addFlows, List.foldl_cons, h1, ← ih (insFlow F g), addFlows_insFlow]
    rfl

theorem nodeBeq_congr_left {b p : Node} (h : nodeBeq b p = true) (x : Node) :
    nodeBeq b x = nodeBeq p x := by
  rw [nodeBeq_symm b x, nodeBeq_symm p x]
  exact nodeBeq_congr_right h x

/-- Membership of a source node among the pairs of a list, by `Node.__eq__`. -/
def srcMem (s : Node) (l : List LPair) : Bool :=
  l.any (fun q => nodeBeq q.1 s)

theorem srcMem_nil (t : Node) : srcMem t [] = false := rfl

theorem srcMem_cons (t : Node) (q : LPair) (l : List LPair) :
    srcMem t (q :: l) = (nodeBeq q.1 t || srcMem t l) := rfl

theorem srcMem_addPairAux (t : Node) (p : LPair) :
    ∀ l : List LPair, srcMem t (addPairAux l p) = (srcMem t l || nodeBeq p.1 t) := by
  intro l
  induction l with
  | nil =>
    rw [addPairAux, srcMem_cons, srcMem_nil, Bool.or_false, Bool.false_or]
  | cons q rest ih =>
    rw [addPairAux]
    by_cases hqp : nodeBeq q.1 p.1 = true
    · rw [if_pos hqp, srcMem_cons, srcMem_cons, ← nodeBeq_congr_left hqp t]
      cases hb : nodeBeq q.1 t <;> cases hr : srcMem t rest <;> rfl
    · rw [if_neg hqp, srcMem_cons, ih, srcMem_cons, Bool.or_assoc]

theorem addPairAux_of_not_srcMem (p : LPair) :
    ∀ {l : List LPair}, srcMem p.1 l = false → addPairAux l p = l ++ [p] := by
  intro l
  induction l with
  | nil => intro _; rfl
  | cons q rest ih =>
    intro h
    rw [srcMem_cons] at h
    rcases Bool.or_eq_false_iff.1 h with ⟨hq, hrest⟩
    rw [addPairAux, if_neg (by rw [hq]; exact Bool.false_ne_true), ih hrest, List.cons_append]

theorem bool_ne_true {b : Bool} (h : b = false) : ¬ (b = true) := by
  rw [h]
  exact Bool.false_ne_true

theorem addPairAux_cons (q : LPair) (rest : List LPair) (p : LPair) :
    addPairAux (q :: rest) p =
      if nodeBeq q.1 p.1 then (q.1, addFlows q.2 p.2) :: rest
      else q :: addPairAux rest p := rfl

theorem addPairAux_swap {p q : LPair} (hpq : nodeBeq q.1 p.1 = false) :
    ∀ {l : List LPair}, srcMem p.1 l = true →
      addPairAux (addPairAux l p) q = addPairAux (addPairAux l q) p := by
  intro l
  induction l with
  | nil => intro h; rw [srcMem_nil] at h; exact absurd h Bool.false_ne_true
  | cons x l ih =>
    intro h
    by_cases hxp : nodeBeq x.1 p.1 = true
    · have hxq : nodeBeq x.1 q.1 = false := by
        cases hv : nodeBeq x.1 q.1 with
        | false => rfl
        | true =>
          have := nodeBeq_trans (nodeBeq_of_symm hv) hxp
          rw [this] at hpq
          simp at hpq
      rw [addPairAux_cons, if_pos hxp, addPairAux_cons, if_neg (bool_ne_true hxq)]
      rw [addPairAux_cons, if_neg (bool_ne_true hxq), addPairAux_cons, if_pos hxp]
    · by_cases hxq : nodeBeq x.1 q.1 = true
      · rw [addPairAux_cons, if_neg hxp, addPairAux_cons, if_pos hxq]
        rw [addPairAux_cons, if_pos hxq, addPairAux_cons]
        dsimp only
        rw [if_neg hxp]
      · have hrest : srcMem p.1 l = true := by
          rw [srcMem_cons] at h
          rcases Bool.or_eq_true_iff.1 h with hq | hr
          · exact absurd hq hxp
          · exact hr
        rw [addPairAux_cons, if_neg hxp, addPairAux_cons, if_neg (bool_ne_true (eq_false_of_ne_true hxq))]
        rw [addPairAux_cons, if_neg (bool_ne_true (eq_false_of_ne_true hxq)), addPairAux_cons, if_neg hxp]
        rw [ih hrest]

theorem addPairAux_merge {b p : LPair} (hbp : nodeBeq b.1 p.1 = true) :
    ∀ A : List LPair, addPairAux (addPairAux A b) p = addPairAux A (b.1, addFlows b.2 p.2) := by
  intro A
  induction A with
  | nil =>
    show addPairAux [b] p = _
    rw [addPairAux_cons, if_pos hbp]
    rfl
  | cons a A ih =>
    by_cases hab : nodeBeq a.1 b.1 = true
    · have hap : nodeBeq a.1 p.1 = true := nodeBeq_trans hab hbp
      rw [addPairAux_cons, if_pos hab, addPairAux_cons, if_pos hap, addPairAux_cons]
      dsimp only
      rw [if_pos hab, addFlows_assoc]
    · have hap : nodeBeq a.1 p.1 = false := by
        cases hv : nodeBeq a.1 p.1 with
        | false => rfl
        | true =>
          have := nodeBeq_trans hv (nodeBeq_of_symm hbp)
          rw [this] at hab
          exact absurd rfl hab
      rw [addPairAux_cons, if_neg hab, addPairAux_cons, if_neg (bool_ne_true hap),
        addPairAux_cons]
      dsimp only
      rw [if_neg hab, ih]

theorem foldl_addPairAux_commute {p : LPair} :
    ∀ (B : List LPair) (X : List LPair), srcMem p.1 X = true →
      (∀ q ∈ B, nodeBeq q.1 p.1 = false) →
      List.foldl addPairAux (addPairAux X p) B = addPairAux (List.foldl addPairAux X B) p := by
  intro B
  induction B with
  | nil => intro X _ _; rfl
  | cons b B ih =>
    intro X hX hB
    rw [List.foldl_cons, List.foldl_cons,
      addPairAux_swap (hB b (List.mem_cons_self b B)) hX]
    refine ih (addPairAux X b) ?_ ?_
    · rw [srcMem_addPairAux, hX, Bool.true_or]
    · intro q hq
      exact hB q (List.mem_cons_of_mem b hq)

/-- The invariant of distinct source nodes over a raw pair list. -/
def wfPairs (l : List LPair) : Prop :=
  l.Pairwise (fun p q => nodeBeq p.1 q.1 = false)

theorem wfPairs_addPairAux {B : List LPair} (c : LPair) (hB : wfPairs B) :
    wfPairs (addPairAux B c) := by
  induction B with
  | nil => exact List.pairwise_singleton _ _
  | cons b B ih =>
    rcases List.pairwise_cons.1 hB with ⟨hbB, hB2⟩
    by_cases hbc : nodeBeq b.1 c.1 = true
    · rw [addPairAux_cons, if_pos hbc]
      exact List.pairwise_cons.2 ⟨hbB, hB2⟩
    · rw [addPairAux_cons, if_neg hbc]
      refine List.pairwise_cons.2 ⟨?_, ih hB2⟩
      intro q hq
      have hsrc : srcMem b.1 (addPairAux B c) = (srcMem b.1 B || nodeBeq c.1 b.1) :=
        srcMem_addPairAux b.1 c B
      have hBs : srcMem b.1 B = false := by
        refine List.any_eq_false.2 ?_
        intro x hx
        rw [nodeBeq_symm]
        exact bool_ne_true (hbB x hx)
      have hcb : nodeBeq c.1 b.1 = false := by
        rw [nodeBeq_symm]
        exact eq_false_of_ne_true hbc
      rw [hBs, hcb, Bool.or_false] at hsrc
      have := List.any_eq_false.1 hsrc q hq
      rw [nodeBeq_symm]
      exact eq_false_of_ne_true this

theorem foldl_addPairAux_addPairAux {p : LPair} :
    ∀ {B : List LPair}, wfPairs B → ∀ (A : List LPair),
      List.foldl addPairAux A (addPairAux B p) =
        addPairAux (List.foldl addPairAux A B) p := by
  intro B
  induction B with
  | nil => intro _ A; rfl
  | cons b B ih =>
    intro hwf A
    rcases List.pairwise_cons.1 hwf with ⟨hbB, hB2⟩
    by_cases hbp : nodeBeq b.1 p.1 = true
    · rw [addPairAux_cons, if_pos hbp, List.foldl_cons, List.foldl_cons]
      rw [← addPairAux_merge hbp A]
      refine foldl_addPairAux_commute B (addPairAux A b) ?_ ?_
      · rw [srcMem_addPairAux, hbp, Bool.or_true]
      · intro q hq
        rw [← nodeBeq_congr_right hbp q.1, nodeBeq_symm]
        exact hbB q hq
    · rw [addPairAux_cons, if_neg hbp, List.foldl_cons, List.foldl_cons,
        ih hB2 (addPairAux A b)]

theorem foldl_addPairAux_assoc :
    ∀ (C : List LPair) {B : List LPair}, wfPairs B → ∀ (A : List LPair),
      List.foldl addPairAux (List.foldl addPairAux A B) C =
        List.foldl addPairAux A (List.foldl addPairAux B C) := by
  intro C
  induction C with
  | nil => intro B _ A; rfl
  | cons c C ih =>
    intro B hwf A
    rw [List.foldl_cons, List.foldl_cons, ← ih (wfPairs_addPairAux c hwf) A,
      foldl_addPairAux_addPairAux hwf A]

/-- Associativity of `Label.combine` as list equality, for a well-formed
middle label. -/
theorem Label.combine_assoc {l1 l2 l3 : Label} (h2 : l2.wf) :
    Label.combine (Label.combine l1 l2) l3 = Label.combine l1 (Label.combine l2 l3) := by
  unfold Label.combine
  exact congrArg Label.mk (foldl_addPairAux_assoc l3.pairs h2 l1.pairs)

theorem foldl_addPairAux_append :
    ∀ {B : List LPair}, wfPairs B → ∀ {A : List LPair},
      (∀ q ∈ B, srcMem q.1 A = false) →
      List.foldl addPairAux A B = A ++ B := by
  intro B
  induction B with
  | nil => intro _ A _; rw [List.foldl_nil, List.append_nil]
  | cons b B ih =>
    intro hwf A hdis
    rcases List.pairwise_cons.1 hwf with ⟨hbB, hB2⟩
    have hA : ∀ q ∈ B, srcMem q.1 (A ++ [b]) = false := by
      intro q hq
      have h1 : srcMem q.1 A = false := hdis q (List.mem_cons_of_mem b hq)
      rw [srcMem] at h1
      rw [srcMem, List.any_append, h1, Bool.false_or, List.any_cons, List.any_nil,
        Bool.or_false]
      exact hbB q hq
    rw [List.foldl_cons, addPairAux_of_not_srcMem b (hdis b (List.mem_cons_self b B)),
      ih hB2 hA, List.append_assoc, List.singleton_append]

theorem label_beq_append_swap (X Y : List LPair) :
    Label.beq ⟨X ++ Y⟩ ⟨Y ++ X⟩ = true := by
  rw [Label.beq, Bool.and_eq_true]
  refine ⟨?_, ?_⟩
  · simp [List.length_append, Nat.add_comm]
  · refine List.all_eq_true.2 ?_
    intro p hp
    refine List.any_eq_true.2 ⟨p, ?_, pairBeq_refl p⟩
    rcases List.mem_append.1 hp with h | h
    · exact List.mem_append.2 (Or.inr h)
    · exact List.mem_append.2 (Or.inl h)

/-- C5, amended: for labels whose pairs carry pairwise distinct source nodes
(the invariant `add_pair` maintains), `Label.combine` is associative up to the
`Label.__eq__` pair-set equality; it is additionally commutative up to that
equality when the two labels share no source node.  Commutativity fails in
general — in particular when the labels hold the same source with different
flow lists — and associativity fails for labels with duplicated sources (see
the counterexample). -/
theorem c5_combine_assoc_and_comm (l1 l2 l3 : Label)
    (h1 : l1.wf) (h2 : l2.wf) (h3 : l3.wf) :
    Label.beq (Label.combine (Label.combine l1 l2) l3)
        (Label.combine l1 (Label.combine l2 l3)) = true ∧
    ((∀ p ∈ l1.pairs, ∀ q ∈ l2.pairs, nodeBeq p.1 q.1 = false) →
      Label.beq (Label.combine l1 l2) (Label.combine l2 l1) = true) := by
  refine ⟨?_, ?_⟩
  · rw [Label.combine_assoc h2]
    exact Label.beq_refl _
  · intro hdis
    have e12 : Label.combine l1 l2 = ⟨l1.pairs ++ l2.pairs⟩ := by
      unfold Label.combine
      refine congrArg Label.mk (foldl_addPairAux_append h2 ?_)
      intro q hq
      refine List.any_eq_false.2 ?_
      intro x hx
      exact bool_ne_true (hdis x hx q hq)
    have e21 : Label.combine l2 l1 = ⟨l2.pairs ++ l1.pairs⟩ := by
      unfold Label.combine
      refine congrArg Label.mk (foldl_addPairAux_append h1 ?_)
      intro q hq
      refine List.any_eq_false.2 ?_
      intro x hx
      rw [nodeBeq_symm]
      exact bool_ne_true (hdis q hq x hx)
    rw [e12, e21]
    exact label_beq_append_swap _ _

/-- C5, counterexample: with the shared source `("x",1)` and the distinct flow
lists `[[("p",1)]]` and `[[("q",1)]]`, `Label.combine` is not commutative up
to `Label.__eq__` (the merged flow lists come out in different orders); and on
a label holding two pairs with the same source — reachable through
`fix_lineno` — it is not associative either. -/
theorem c5_counterexample :
    Label.beq
        (Label.combine ⟨[(⟨"x", 1, true⟩, [[⟨"p", 1, true⟩]])]⟩
          ⟨[(⟨"x", 1, true⟩, [[⟨"q", 1, true⟩]])]⟩)
        (Label.combine ⟨[(⟨"x", 1, true⟩, [[⟨"q", 1, true⟩]])]⟩
          ⟨[(⟨"x", 1, true⟩, [[⟨"p", 1, true⟩]])]⟩) = false ∧
    Label.beq
        (Label.combine
          (Label.combine ⟨[]⟩
            ⟨[(⟨"x", 1, true⟩, [[⟨"p", 1, true⟩]]), (⟨"x", 1, true⟩, [[⟨"q", 1, true⟩]])]⟩)
          ⟨[(⟨"x", 1, true⟩, [[⟨"r", 1, true⟩]])]⟩)
        (Label.combine ⟨[]⟩
          (Label.combine
            ⟨[(⟨"x", 1, true⟩, [[⟨"p", 1, true⟩]]), (⟨"x", 1, true⟩, [[⟨"q", 1, true⟩]])]⟩
            ⟨[(⟨"x", 1, true⟩, [[⟨"r", 1, true⟩]])]⟩)) = false := by
  decide

/-- C5, witness: the amended law applied to three concrete single-source
well-formed labels, the first two sharing no source. -/
theorem c5_combine_assoc_and_comm_witness :
    Label.beq
        (Label.combine (Label.combine (Label.fromSource ⟨"x", 1, true⟩)
          (Label.fromSource ⟨"y", 1, true⟩)) (Label.fromSource ⟨"z", 1, true⟩))
        (Label.combine (Label.fromSource ⟨"x", 1, true⟩)
          (Label.combine (Label.fromSource ⟨"y", 1, true⟩)
            (Label.fromSource ⟨"z", 1, true⟩))) = true ∧
    Label.beq
        (Label.combine (Label.fromSource ⟨"x", 1, true⟩) (Label.fromSource ⟨"y", 1, true⟩))
        (Label.combine (Label.fromSource ⟨"y", 1, true⟩)
          (Label.fromSource ⟨"x", 1, true⟩)) = true :=
  ⟨(c5_combine_assoc_and_comm (Label.fromSource ⟨"x", 1, true⟩)
      (Label.fromSource ⟨"y", 1, true⟩) (Label.fromSource ⟨"z", 1, true⟩)
      (List.pairwise_singleton _ _) (List.pairwise_singleton _ _)
      (List.pairwise_singleton _ _)).1,
   (c5_combine_assoc_and_comm (Label.fromSource ⟨"x", 1, true⟩)
      (Label.fromSource ⟨"y", 1, true⟩) (Label.fromSource ⟨"z", 1, true⟩)
      (List.pairwise_singleton _ _) (List.pairwise_singleton _ _)
      (List.pairwise_singleton _ _)).2 (by decide)⟩
